import Mathlib

/-!
Shallow embedding of the Rewards & Ranking core of
`src/simplrefq-cloud-optimized.py` (a Telegram reward bot backed by a
MongoDB `users` collection), together with theorems settling the spec
claims about it.

The `users` collection is modelled as a `List UserRec` in insertion
order; `users_collection.find_one({"user_id": uid})` is `List.find?`,
and `users_collection.update_one({"user_id": uid}, {"$set": ...})` is a
`List.map` that rewrites the matching record.  Fields that a handler
reads with `user.get(field, default)` are `Option`-typed, `none`
standing for an absent field in the stored document.
-/

/-- A UTC instant, split the way the Python code observes it:
`day` is the calendar date (as a day index) returned by `.date()`, and
`tod` is the time within that day.  `datetime.combine(date.today(),
datetime.min.time())` is the instant `⟨day, 0⟩` (midnight). -/
structure Instant where
  day : Nat
  tod : Nat
deriving DecidableEq, Repr

/-- Midnight (start) of the calendar day of `now`: the value the code
builds as `utc.localize(datetime.combine(date.today(), datetime.min.time()))`. -/
def midnight (now : Instant) : Instant :=
  ⟨now.day, 0⟩

/-- One document of the `users` collection.  The fields through
`tasks_completed` are exactly the ones `start` inserts
(src line 76-85).  The last three fields (`wallet_address`,
`wallet_verified`, `referred_by`) do not occur anywhere in the source
file; they are modelled from the spec for the wallet-linking and
referral-tracking operations the spec describes, and are absent
(`none` / `false`) in every document the source code creates. -/
structure UserRec where
  user_id : Nat
  username : String
  balance : Option Int
  wallet : Option Int
  rank : Option Nat
  joined_channel : Bool
  last_claimed : Option Instant
  tasks_completed : List Nat
  wallet_address : Option (List Char)
  wallet_verified : Bool
  referred_by : Option Nat
deriving DecidableEq, Repr

/-- The document `start` inserts for a new user (src lines 76-85):
balance 0, wallet 0, rank None, joined_channel True, last_claimed None,
tasks_completed []. -/
def mkUser (uid : Nat) (uname : String) : UserRec :=
  { user_id := uid
    username := uname
    balance := some 0
    wallet := some 0
    rank := none
    joined_channel := true
    last_claimed := none
    tasks_completed := []
    wallet_address := none
    wallet_verified := false
    referred_by := none }

/-- Predicate used by every `find_one({"user_id": user_id})` /
`update_one({"user_id": user_id}, ...)` filter. -/
def hasId (uid : Nat) (u : UserRec) : Bool :=
  u.user_id == uid

/-- The store lookup `users_collection.find_one({"user_id": uid})`. -/
def findUser (db : List UserRec) (uid : Nat) : Option UserRec :=
  db.find? (hasId uid)

/-- The `/start` handler's store effect (src lines 58-105): if the
channel gate is not passed nothing is touched; otherwise the user
record is inserted with defaults when absent, and only
`joined_channel` is re-set to `True` when it already exists. -/
def start (joined : Bool) (uid : Nat) (uname : String) (db : List UserRec) : List UserRec :=
  if !joined then db
  else
    match findUser db uid with
    | none => db ++ [mkUser uid uname]
    | some _ => db.map (fun u => if hasId uid u then { u with joined_channel := true } else u)

/-- The balance the `balance` handler reports (src line 136):
`user.get("balance", 0)`, i.e. an absent field reads as 0; `none` when
no record exists. -/
def getBalance (db : List UserRec) (uid : Nat) : Option Int :=
  (findUser db uid).map (fun u => u.balance.getD 0)

/-- The pair the `wallet` handler reports (src lines 213-215):
`user.get("wallet", 0)` and `user.get("balance", 0)`. -/
def walletView (db : List UserRec) (uid : Nat) : Option (Int × Int) :=
  (findUser db uid).map (fun u => (u.wallet.getD 0, u.balance.getD 0))

/-- Outcome of the `daily_rewards` handler: no record found /
"already claimed your daily reward today" (credited = false) /
"successfully claimed 10 $REBLCOINS" (credited = true). -/
inductive ClaimOutcome
  | noUser
  | alreadyClaimed
  | credited
deriving DecidableEq, Repr

/-- Whether an outcome is a credited claim. -/
def ClaimOutcome.isCredited : ClaimOutcome → Bool
  | .credited => true
  | _ => false

/-- Read phase of `daily_rewards` (src line 166): the `find_one`
snapshot of the claimant's record. -/
def claimRead (db : List UserRec) (uid : Nat) : Option UserRec :=
  findUser db uid

/-- Eligibility decision of `daily_rewards` (src lines 171-176), taken
on the snapshot `user`: ineligible exactly when `last_claimed` exists
and `last_claimed.date() == today.date()`. -/
def claimEligible (user : UserRec) (now : Instant) : Bool :=
  match user.last_claimed with
  | some lc => lc.day != (midnight now).day
  | none => true

/-- Write phase of `daily_rewards` (src lines 178-181): the
`update_one` that sets `balance` to `user.get("balance", 0) + 10` and
`last_claimed` to `today` (midnight), both computed from the snapshot
`user`, not from the store's current state. -/
def claimWrite (db : List UserRec) (uid : Nat) (user : UserRec) (now : Instant) : List UserRec :=
  db.map (fun v =>
    if hasId uid v then
      { v with balance := some (user.balance.getD 0 + 10), last_claimed := some (midnight now) }
    else v)

/-- The `daily_rewards` handler (src lines 162-182), as the sequential
composition of its read, decide and write phases. -/
def daily_rewards (db : List UserRec) (uid : Nat) (now : Instant) :
    ClaimOutcome × List UserRec :=
  match claimRead db uid with
  | none => (.noUser, db)
  | some user =>
    if claimEligible user now then (.credited, claimWrite db uid user now)
    else (.alreadyClaimed, db)

/-- Balance sort key used by the leaderboard / ranking queries:
`user.get("balance", 0)`. -/
def balKey (u : UserRec) : Int :=
  u.balance.getD 0

/-- Leaderboard order: balance descending.  `lbRel a b` says `a` may
come before `b`. -/
def lbRel (a b : UserRec) : Prop :=
  balKey b ≤ balKey a

instance : DecidableRel lbRel := fun a b =>
  inferInstanceAs (Decidable (balKey b ≤ balKey a))

instance : IsTotal UserRec lbRel :=
  ⟨fun a b => le_total (balKey b) (balKey a)⟩

instance : IsTrans UserRec lbRel :=
  ⟨fun _ _ _ hab hbc => le_trans hbc hab⟩

/-- The `leaderboard` handler's query (src line 151):
`find().sort("balance", DESCENDING).limit(10)`, then each row rendered
as `(username, balance)` with `get`-defaults (src lines 154-155).
The sort is modelled as a stable descending sort on the stored order. -/
def leaderboard (db : List UserRec) : List (String × Int) :=
  ((List.insertionSort lbRel db).take 10).map (fun u => (u.username, balKey u))

/-- The `ranking` handler's aggregation (src lines 185-204):
`$setWindowFields` with `sortBy {balance: -1}` and output `$rank`.
Mongo's `$rank` gives a document rank `1 + (number of documents that
sort strictly before it)`; with the sole sort key `balance`
descending, that is `1 + #(strictly larger balances)`, and documents
with equal balances receive the same rank.  The handler then reports
`(rank, balance)` for the matching user. -/
def rankOf (db : List UserRec) (uid : Nat) : Option (Nat × Int) :=
  (findUser db uid).map (fun u =>
    (1 + (db.filter (fun v => balKey u < balKey v)).length, balKey u))

/-- Modelled from the spec: hexadecimal-digit test of the Wallet
Linker's validation policy, section 4.3 (the source file contains no
wallet-linking operation; its `wallet` handler only displays stored
fields). -/
def isHexChar (c : Char) : Bool :=
  (decide ('0' ≤ c) && decide (c ≤ '9')) ||
    (decide ('a' ≤ c) && decide (c ≤ 'f')) ||
    (decide ('A' ≤ c) && decide (c ≤ 'F'))

/-- Modelled from the spec: the Wallet Linker's address validation,
section 4.3 — prefix `0x`, total length 42, hex digits after the
prefix.  Addresses are modelled as lists of characters. -/
def validWalletAddress (addr : List Char) : Bool :=
  addr.length == 42 && addr.take 2 == ['0', 'x'] && (addr.drop 2).all isHexChar

/-- Result of the Wallet Linker. -/
inductive LinkResult
  | linked
  | rejectedInvalidFormat
deriving DecidableEq, Repr

/-- Modelled from the spec: `link_wallet(user_id, address)`, section
4.3 (missing from the source).  On a valid address the address is
persisted and `wallet_verified` set true in one atomic record update;
on an invalid address nothing is written. -/
def link_wallet (db : List UserRec) (uid : Nat) (addr : List Char) :
    LinkResult × List UserRec :=
  if validWalletAddress addr then
    (.linked, db.map (fun u =>
      if hasId uid u then { u with wallet_address := some addr, wallet_verified := true }
      else u))
  else (.rejectedInvalidFormat, db)

/-- Modelled from the spec: `Ledger.credit(user_id, amount, reason)`,
section 4.2 (missing from the source).  Fails (`none`) on a
non-positive amount or a missing account; otherwise adds `amount` to
the stored balance and returns the new balance. -/
def credit (db : List UserRec) (uid : Nat) (amount : Int) :
    Option (Int × List UserRec) :=
  if amount ≤ 0 then none
  else
    (findUser db uid).map (fun u =>
      (u.balance.getD 0 + amount,
       db.map (fun v =>
         if hasId uid v then { v with balance := some (v.balance.getD 0 + amount) } else v)))

/-- Modelled from the spec: resolution of a referral token — "a
username or raw id", section 4.5. -/
def resolveToken (db : List UserRec) (token : String) : Option UserRec :=
  match db.find? (fun u => u.username == token) with
  | some u => some u
  | none => token.toNat?.bind (fun n => findUser db n)

/-- Modelled from the spec: `register_referral(invitee_id,
inviter_token)`, section 4.5 (missing from the source; the source's
`invite_friends` only renders a referral link).  Fails silently when
the token does not resolve, resolves to the invitee itself, the
invitee is unknown, or the invitee already has `referred_by` set.  On
success it sets the invitee's `referred_by` and credits the inviter
with the fixed bonus, as one transaction over the store. -/
def register_referral (db : List UserRec) (invitee : Nat) (token : String) (bonus : Int) :
    Bool × List UserRec :=
  match resolveToken db token with
  | none => (false, db)
  | some inviter =>
    if inviter.user_id == invitee then (false, db)
    else
      match findUser db invitee with
      | none => (false, db)
      | some inv =>
        if inv.referred_by.isSome then (false, db)
        else
          (true, db.map (fun v =>
            if hasId invitee v then { v with referred_by := some inviter.user_id }
            else if hasId inviter.user_id v then
              { v with balance := some (v.balance.getD 0 + bonus) }
            else v))

/-- A balance-affecting core operation: a daily claim (src lines
162-182) or a spec-modelled ledger credit. -/
inductive LedgerOp
  | claimOp (uid : Nat) (now : Instant)
  | creditOp (uid : Nat) (amount : Int)
deriving DecidableEq, Repr

/-- Store effect of one ledger operation (a failed credit leaves the
store unchanged). -/
def applyOp (db : List UserRec) : LedgerOp → List UserRec
  | .claimOp uid now => (daily_rewards db uid now).2
  | .creditOp uid amount =>
    match credit db uid amount with
    | some p => p.2
    | none => db

/-- Store effect of a finite sequence of ledger operations. -/
def applyOps (db : List UserRec) (ops : List LedgerOp) : List UserRec :=
  ops.foldl applyOp db

/-- Declarative hexadecimal-digit property from the spec's words:
case-insensitive `0-9`, `a-f`, `A-F`. -/
def isHexCharSpec (c : Char) : Prop :=
  ('0' ≤ c ∧ c ≤ '9') ∨ ('a' ≤ c ∧ c ≤ 'f') ∨ ('A' ≤ c ∧ c ≤ 'F')

instance (c : Char) : Decidable (isHexCharSpec c) := by
  unfold isHexCharSpec
  infer_instance

/-- Declarative wallet-address format from the spec's words: starts
with the two-character prefix `0x`, total length 42, every character
after the prefix a hexadecimal digit. -/
def specWalletFormat (addr : List Char) : Prop :=
  addr.length = 42 ∧ addr.take 2 = ['0', 'x'] ∧ ∀ c ∈ addr.drop 2, isHexCharSpec c

instance (addr : List Char) : Decidable (specWalletFormat addr) := by
  unfold specWalletFormat
  infer_instance

/-- Nonnegativity invariant over a store: every stored record's
balance reads as a nonnegative value. -/
def balancesNonneg (db : List UserRec) : Prop :=
  ∀ u ∈ db, 0 ≤ u.balance.getD 0

/-- Helper: a record rewrite that does not change `user_id` commutes
with `findUser`. -/
theorem findUser_map (G : UserRec → UserRec) (hG : ∀ v, (G v).user_id = v.user_id)
    (uid : Nat) (db : List UserRec) :
    findUser (db.map G) uid = (findUser db uid).map G := by
  induction db with
  | nil => rfl
  | cons h t ih =>
    unfold findUser at *
    simp only [List.map_cons]
    by_cases hh : hasId uid h = true
    · have hGh : hasId uid (G h) = true := by simpa [hasId, hG h] using hh
      rw [List.find?_cons_of_pos _ hGh, List.find?_cons_of_pos _ hh]
      rfl
    · have hGh : ¬ hasId uid (G h) = true := by simpa [hasId, hG h] using hh
      rw [List.find?_cons_of_neg _ hGh, List.find?_cons_of_neg _ hh]
      exact ih

/-- Helper: `update_one({"user_id": uid}, {"$set": ...})` rewrites the
record `findUser` returns, and only that record as far as `findUser
uid` can see. -/
theorem findUser_update (uid : Nat) (f : UserRec → UserRec)
    (hf : ∀ v, (f v).user_id = v.user_id) (db : List UserRec) :
    findUser (db.map (fun v => if hasId uid v then f v else v)) uid
      = (findUser db uid).map f := by
  have hG : ∀ v, ((fun v => if hasId uid v then f v else v) v).user_id = v.user_id := by
    intro v
    by_cases hv : hasId uid v = true <;> simp [hv, hf v]
  rw [findUser_map _ hG]
  cases hfind : findUser db uid with
  | none => rfl
  | some r =>
    have hr : hasId uid r = true := List.find?_some hfind
    simp [hr]

/-- Helper: a fresh record appended behind a store in which `uid` is
absent is what `findUser uid` returns afterwards. -/
theorem findUser_append_fresh (db : List UserRec) (x : UserRec) (uid : Nat)
    (hnone : findUser db uid = none) (hx : hasId uid x = true) :
    findUser (db ++ [x]) uid = some x := by
  unfold findUser at *
  rw [List.find?_append, hnone]
  simp [List.find?_cons_of_pos _ hx]

/-- C9: the first registration contact (the `/start` handler with the
channel gate passed) creates an account with balance 0, unset wallet
address, unset referrer and unset last-claim timestamp, and any later
registration for the same `user_id` returns the existing record with
only `joined_channel` re-set — balance, wallet and last-claim
timestamp are not overwritten. -/
theorem start_registration_idempotent (db : List UserRec) (uid : Nat) (uname : String) :
    findUser (start true uid uname db) uid =
      some ((findUser db uid).elim (mkUser uid uname)
        (fun u => { u with joined_channel := true })) ∧
    (mkUser uid uname).balance = some 0 ∧
    (mkUser uid uname).wallet_address = none ∧
    (mkUser uid uname).referred_by = none ∧
    (mkUser uid uname).last_claimed = none ∧
    (∀ u : UserRec,
      ({ u with joined_channel := true } : UserRec).balance = u.balance ∧
      ({ u with joined_channel := true } : UserRec).wallet = u.wallet ∧
      ({ u with joined_channel := true } : UserRec).wallet_address = u.wallet_address ∧
      ({ u with joined_channel := true } : UserRec).last_claimed = u.last_claimed) := by
  refine ⟨?_, rfl, rfl, rfl, rfl, fun u => ⟨rfl, rfl, rfl, rfl⟩⟩
  cases hfind : findUser db uid with
  | none =>
    have hs : start true uid uname db = db ++ [mkUser uid uname] := by
      unfold start
      rw [hfind]
      rfl
    rw [hs]
    exact findUser_append_fresh db _ uid hfind (by simp [hasId, mkUser])
  | some u =>
    have hs : start true uid uname db
        = db.map (fun v => if hasId uid v then { v with joined_channel := true } else v) := by
      unfold start
      rw [hfind]
      rfl
    rw [hs, findUser_update uid (fun v => { v with joined_channel := true })
      (fun v => rfl) db, hfind]
    rfl

/-- C4: a daily-claim attempt by an existing account that fails the
already-claimed-today eligibility check mutates nothing — the store is
returned unchanged — and reports the already-claimed outcome
(credited = false), not a hard error. -/
theorem claim_already_no_mutation (db : List UserRec) (uid : Nat) (now : Instant)
    (u : UserRec) (lc : Instant) (hfind : findUser db uid = some u)
    (hlc : u.last_claimed = some lc) (hday : lc.day = now.day) :
    daily_rewards db uid now = (.alreadyClaimed, db) ∧
    (daily_rewards db uid now).1.isCredited = false := by
  have hel : claimEligible u now = false := by
    simp [claimEligible, hlc, midnight, hday]
  have h1 : daily_rewards db uid now = (.alreadyClaimed, db) := by
    simp [daily_rewards, claimRead, hfind, hel]
  exact ⟨h1, by rw [h1]; rfl⟩

/-- C4 witness: concrete evaluation of the already-claimed branch. -/
theorem claim_already_no_mutation_witness :
    daily_rewards [{ mkUser 1 "U1" with last_claimed := some ⟨5, 300⟩ }] 1 ⟨5, 700⟩
        = (.alreadyClaimed, [{ mkUser 1 "U1" with last_claimed := some ⟨5, 300⟩ }]) ∧
    (daily_rewards [{ mkUser 1 "U1" with last_claimed := some ⟨5, 300⟩ }] 1
        ⟨5, 700⟩).1.isCredited = false :=
  claim_already_no_mutation _ 1 ⟨5, 700⟩ _ ⟨5, 300⟩ rfl rfl rfl

/-- C10: a stored record whose balance field is absent reads as
balance 0 through the balance view and the wallet view, and an
eligible daily claim on it sets the balance to exactly 0 + 10. -/
theorem absent_balance_reads_zero (db : List UserRec) (uid : Nat) (now : Instant)
    (u : UserRec) (hfind : findUser db uid = some u) (hbal : u.balance = none)
    (hel : claimEligible u now = true) :
    getBalance db uid = some 0 ∧
    walletView db uid = some (u.wallet.getD 0, 0) ∧
    (daily_rewards db uid now).1 = .credited ∧
    getBalance (daily_rewards db uid now).2 uid = some 10 := by
  have hdr : daily_rewards db uid now = (.credited, claimWrite db uid u now) := by
    simp [daily_rewards, claimRead, hfind, hel]
  refine ⟨?_, ?_, ?_, ?_⟩
  · simp [getBalance, hfind, hbal]
  · simp [walletView, hfind, hbal]
  · rw [hdr]
  · rw [hdr]
    show getBalance (claimWrite db uid u now) uid = some 10
    unfold claimWrite getBalance
    rw [findUser_update uid
      (fun v => { v with balance := some (u.balance.getD 0 + 10),
                         last_claimed := some (midnight now) }) (fun v => rfl) db, hfind]
    simp [hbal]

/-- C10 witness: concrete record with an absent balance field. -/
theorem absent_balance_reads_zero_witness :
    getBalance [{ mkUser 1 "U1" with balance := none }] 1 = some 0 ∧
    walletView [{ mkUser 1 "U1" with balance := none }] 1
      = some (({ mkUser 1 "U1" with balance := none } : UserRec).wallet.getD 0, 0) ∧
    (daily_rewards [{ mkUser 1 "U1" with balance := none }] 1 ⟨3, 42⟩).1 = .credited ∧
    getBalance (daily_rewards [{ mkUser 1 "U1" with balance := none }] 1 ⟨3, 42⟩).2 1
      = some 10 :=
  absent_balance_reads_zero _ 1 ⟨3, 42⟩ _ rfl rfl rfl

/-- C1: for an account that has not yet claimed on the given UTC
calendar day, two daily-claim calls on that same day yield exactly one
credited result and one non-credited result — the first call credits
and the second reports already-claimed, whatever the two same-day
instants are (so in either order of the two instants) — and the
balance view grows by exactly the fixed daily amount 10 over the two
calls. -/
theorem claim_twice_one_credit (db : List UserRec) (uid : Nat) (t1 t2 : Instant)
    (u : UserRec) (hfind : findUser db uid = some u) (hday : t1.day = t2.day)
    (hfresh : ∀ lc, u.last_claimed = some lc → lc.day ≠ t1.day) :
    (daily_rewards db uid t1).1.isCredited = true ∧
    (daily_rewards (daily_rewards db uid t1).2 uid t2).1.isCredited = false ∧
    getBalance (daily_rewards (daily_rewards db uid t1).2 uid t2).2 uid
      = (getBalance db uid).map (fun b => b + 10) := by
  have hel1 : claimEligible u t1 = true := by
    unfold claimEligible
    cases hlc : u.last_claimed with
    | none => rfl
    | some lc => simp [midnight, hfresh lc hlc]
  have hdr1 : daily_rewards db uid t1 = (.credited, claimWrite db uid u t1) := by
    simp [daily_rewards, claimRead, hfind, hel1]
  have hfind1 : findUser (claimWrite db uid u t1) uid
      = some { u with balance := some (u.balance.getD 0 + 10),
                      last_claimed := some (midnight t1) } := by
    unfold claimWrite
    rw [findUser_update uid
      (fun v => { v with balance := some (u.balance.getD 0 + 10),
                         last_claimed := some (midnight t1) }) (fun v => rfl) db, hfind]
    rfl
  have hel2 : claimEligible
      { u with balance := some (u.balance.getD 0 + 10),
               last_claimed := some (midnight t1) } t2 = false := by
    simp [claimEligible, midnight, hday]
  have hdr2 : daily_rewards (claimWrite db uid u t1) uid t2
      = (.alreadyClaimed, claimWrite db uid u t1) := by
    simp [daily_rewards, claimRead, hfind1, hel2]
  refine ⟨?_, ?_, ?_⟩
  · rw [hdr1]
    rfl
  · rw [hdr1]
    show (daily_rewards (claimWrite db uid u t1) uid t2).1.isCredited = false
    rw [hdr2]
    rfl
  · rw [hdr1]
    show getBalance (daily_rewards (claimWrite db uid u t1) uid t2).2 uid = _
    rw [hdr2]
    show getBalance (claimWrite db uid u t1) uid = _
    unfold getBalance
    rw [hfind1, hfind]
    rfl

/-- C1 witness: a fresh account claiming at 10:00 and 23:59 of day 0. -/
theorem claim_twice_one_credit_witness :
    (daily_rewards [mkUser 1 "U1"] 1 ⟨0, 600⟩).1.isCredited = true ∧
    (daily_rewards (daily_rewards [mkUser 1 "U1"] 1 ⟨0, 600⟩).2 1 ⟨0, 86340⟩).1.isCredited
      = false ∧
    getBalance (daily_rewards (daily_rewards [mkUser 1 "U1"] 1 ⟨0, 600⟩).2 1 ⟨0, 86340⟩).2 1
      = (getBalance [mkUser 1 "U1"] 1).map (fun b => b + 10) :=
  claim_twice_one_credit [mkUser 1 "U1"] 1 ⟨0, 600⟩ ⟨0, 86340⟩ (mkUser 1 "U1") rfl rfl
    (fun lc hlc => by simp [mkUser] at hlc)

/-- C2 (amended): for an existing account whose stored last-claim date
is not in the future, a daily claim at `now` is credited exactly when
the last-claim timestamp is null or its calendar date is strictly
earlier than `now`'s; on a credited claim the one atomic record update
adds the fixed daily amount 10 to the balance and sets the last-claim
timestamp to the UTC start (midnight) of `now`'s calendar day — not to
the instant `now` itself. -/
theorem claim_eligibility_update (db : List UserRec) (uid : Nat) (now : Instant)
    (u : UserRec) (hfind : findUser db uid = some u)
    (hpast : ∀ lc, u.last_claimed = some lc → lc.day ≤ now.day) :
    ((daily_rewards db uid now).1 = .credited ↔
      (u.last_claimed = none ∨ ∃ lc, u.last_claimed = some lc ∧ lc.day < now.day)) ∧
    ((daily_rewards db uid now).1 = .credited →
      findUser (daily_rewards db uid now).2 uid
        = some { u with balance := some (u.balance.getD 0 + 10),
                        last_claimed := some (midnight now) }) := by
  have hupd : findUser (claimWrite db uid u now) uid
      = some { u with balance := some (u.balance.getD 0 + 10),
                      last_claimed := some (midnight now) } := by
    unfold claimWrite
    rw [findUser_update uid
      (fun v => { v with balance := some (u.balance.getD 0 + 10),
                         last_claimed := some (midnight now) }) (fun v => rfl) db, hfind]
    rfl
  cases hlc : u.last_claimed with
  | none =>
    have hel : claimEligible u now = true := by simp [claimEligible, hlc]
    have hdr : daily_rewards db uid now = (.credited, claimWrite db uid u now) := by
      simp [daily_rewards, claimRead, hfind, hel]
    constructor
    · rw [hdr]
      simp
    · intro _
      rw [hdr]
      exact hupd
  | some lc =>
    by_cases hd : lc.day = now.day
    · have hel : claimEligible u now = false := by simp [claimEligible, hlc, midnight, hd]
      have hdr : daily_rewards db uid now = (.alreadyClaimed, db) := by
        simp [daily_rewards, claimRead, hfind, hel]
      constructor
      · rw [hdr]
        simp [hd]
      · intro hcontra
        rw [hdr] at hcontra
        exact absurd hcontra (by simp)
    · have hlt : lc.day < now.day := lt_of_le_of_ne (hpast lc hlc) hd
      have hel : claimEligible u now = true := by simp [claimEligible, hlc, midnight, hd]
      have hdr : daily_rewards db uid now = (.credited, claimWrite db uid u now) := by
        simp [daily_rewards, claimRead, hfind, hel]
      constructor
      · rw [hdr]
        simp [hlt]
      · intro _
        rw [hdr]
        exact hupd

/-- C2 witness: a fresh account claiming at day 0, 10:00. -/
theorem claim_eligibility_update_witness :
    ((daily_rewards [mkUser 1 "U1"] 1 ⟨0, 600⟩).1 = .credited ↔
      ((mkUser 1 "U1").last_claimed = none ∨
        ∃ lc, (mkUser 1 "U1").last_claimed = some lc ∧ lc.day < (0 : Nat))) ∧
    ((daily_rewards [mkUser 1 "U1"] 1 ⟨0, 600⟩).1 = .credited →
      findUser (daily_rewards [mkUser 1 "U1"] 1 ⟨0, 600⟩).2 1
        = some { mkUser 1 "U1" with balance := some ((mkUser 1 "U1").balance.getD 0 + 10),
                                    last_claimed := some (midnight ⟨0, 600⟩) }) :=
  claim_eligibility_update [mkUser 1 "U1"] 1 ⟨0, 600⟩ (mkUser 1 "U1") rfl
    (fun lc hlc => by simp [mkUser] at hlc)

/-- C2 counterexample: a fresh account claims at day 0, time-of-day
600; the claim as stated requires the stored last-claim timestamp to
become the instant `⟨0, 600⟩`, but the code stores midnight `⟨0, 0⟩`. -/
theorem claim_timestamp_midnight_counterexample :
    (daily_rewards [mkUser 1 "U1"] 1 ⟨0, 600⟩).1 = .credited ∧
    (findUser (daily_rewards [mkUser 1 "U1"] 1 ⟨0, 600⟩).2 1).map (fun v => v.last_claimed)
      = some (some ⟨0, 0⟩) ∧
    ¬ ((findUser (daily_rewards [mkUser 1 "U1"] 1 ⟨0, 600⟩).2 1).map (fun v => v.last_claimed)
      = some (some ⟨0, 600⟩)) := by
  refine ⟨rfl, rfl, ?_⟩
  decide

/-- C3: the daily-claim flow is an unsynchronized read-then-write over
the store; at the interleaving where two racing invocations for the
same fresh user both run their read phase before either write phase,
each snapshot is eligible, so each invocation takes the credited
branch — two credited claims on one UTC day — while the final balance
holds a single daily amount (a lost update).  This evaluates the code
at the failing interleaving; at-most-once-per-day credit under
concurrent access does not hold in the code. -/
theorem claim_race_double_credit :
    claimRead [mkUser 1 "U1"] 1 = some (mkUser 1 "U1") ∧
    claimEligible (mkUser 1 "U1") ⟨0, 600⟩ = true ∧
    daily_rewards [mkUser 1 "U1"] 1 ⟨0, 600⟩
      = (.credited, claimWrite [mkUser 1 "U1"] 1 (mkUser 1 "U1") ⟨0, 600⟩) ∧
    getBalance (claimWrite (claimWrite [mkUser 1 "U1"] 1 (mkUser 1 "U1") ⟨0, 600⟩)
        1 (mkUser 1 "U1") ⟨0, 600⟩) 1 = some 10 :=
  ⟨rfl, rfl, rfl, rfl⟩

/-- Helper: the computational hex-digit test agrees with the spec's
declarative character ranges. -/
theorem isHexChar_iff (c : Char) : isHexChar c = true ↔ isHexCharSpec c := by
  simp [isHexChar, isHexCharSpec, Bool.or_eq_true, Bool.and_eq_true, decide_eq_true_eq,
    or_assoc]

/-- Helper: the address validator accepts exactly the addresses with
the spec's declarative format. -/
theorem validWalletAddress_iff (addr : List Char) :
    validWalletAddress addr = true ↔ specWalletFormat addr := by
  simp only [validWalletAddress, specWalletFormat, Bool.and_eq_true, List.all_eq_true,
    beq_iff_eq, isHexChar_iff, and_assoc]

/-- C5: the wallet-link operation (modelled from the spec, section
4.3) accepts an address exactly when it starts with the prefix `0x`,
has total length 42 and every character after the prefix is a
hexadecimal digit; on acceptance the address and the verified flag are
persisted in one record update, and on any violation it returns the
invalid-format rejection with the store untouched. -/
theorem link_wallet_format (db : List UserRec) (uid : Nat) (addr : List Char)
    (u : UserRec) (hfind : findUser db uid = some u) :
    ((link_wallet db uid addr).1 = .linked ↔ specWalletFormat addr) ∧
    (specWalletFormat addr →
      findUser (link_wallet db uid addr).2 uid
        = some { u with wallet_address := some addr, wallet_verified := true }) ∧
    (¬ specWalletFormat addr → link_wallet db uid addr = (.rejectedInvalidFormat, db)) := by
  by_cases hv : validWalletAddress addr = true
  · have hspec : specWalletFormat addr := (validWalletAddress_iff addr).mp hv
    have hlw : link_wallet db uid addr
        = (.linked, db.map (fun v =>
            if hasId uid v then { v with wallet_address := some addr, wallet_verified := true }
            else v)) := by
      simp [link_wallet, hv]
    refine ⟨?_, ?_, ?_⟩
    · rw [hlw]
      simp [hspec]
    · intro _
      rw [hlw]
      show findUser (db.map (fun v =>
          if hasId uid v then { v with wallet_address := some addr, wallet_verified := true }
          else v)) uid = _
      rw [findUser_update uid
        (fun v => { v with wallet_address := some addr, wallet_verified := true })
        (fun v => rfl) db, hfind]
      rfl
    · intro hn
      exact absurd hspec hn
  · have hnspec : ¬ specWalletFormat addr := fun hs => hv ((validWalletAddress_iff addr).mpr hs)
    have hlw : link_wallet db uid addr = (.rejectedInvalidFormat, db) := by
      simp [link_wallet, hv]
    refine ⟨?_, ?_, ?_⟩
    · rw [hlw]
      simp [hnspec]
    · intro hs
      exact absurd hs hnspec
    · intro _
      exact hlw

/-- C5 witness: a well-formed 42-character address for a stored user. -/
theorem link_wallet_format_witness :
    ((link_wallet [mkUser 1 "U1"] 1 ('0' :: 'x' :: List.replicate 40 'a')).1 = .linked ↔
      specWalletFormat ('0' :: 'x' :: List.replicate 40 'a')) ∧
    (specWalletFormat ('0' :: 'x' :: List.replicate 40 'a') →
      findUser (link_wallet [mkUser 1 "U1"] 1 ('0' :: 'x' :: List.replicate 40 'a')).2 1
        = some { mkUser 1 "U1" with
                   wallet_address := some ('0' :: 'x' :: List.replicate 40 'a'),
                   wallet_verified := true }) ∧
    (¬ specWalletFormat ('0' :: 'x' :: List.replicate 40 'a') →
      link_wallet [mkUser 1 "U1"] 1 ('0' :: 'x' :: List.replicate 40 'a')
        = (.rejectedInvalidFormat, [mkUser 1 "U1"])) :=
  link_wallet_format [mkUser 1 "U1"] 1 ('0' :: 'x' :: List.replicate 40 'a')
    (mkUser 1 "U1") rfl

/-- C6 counterexample: two distinct stored accounts with equal balance
both receive rank 1 from the ranking query, so two accounts do share a
rank and the rank cannot be a position in a full leaderboard
traversal. -/
theorem rank_tie_counterexample :
    rankOf [mkUser 1 "A", mkUser 2 "B"] 1 = some (1, 0) ∧
    rankOf [mkUser 1 "A", mkUser 2 "B"] 2 = some (1, 0) ∧
    (mkUser 1 "A").user_id ≠ (mkUser 2 "B").user_id :=
  ⟨rfl, rfl, by decide⟩

/-- C6 (amended): for every stored user the ranking query returns the
1-based competition rank — one plus the number of stored accounts with
strictly greater balance, so accounts with equal balances share the
same rank — together with the balance view, the rank is at least 1,
and the leaderboard is non-strictly descending by balance with at most
10 rows. -/
theorem rank_and_leaderboard (db : List UserRec) (uid : Nat) (u : UserRec)
    (hfind : findUser db uid = some u) :
    rankOf db uid = some (1 + (db.filter (fun v => balKey u < balKey v)).length, balKey u) ∧
    (∀ r b, rankOf db uid = some (r, b) → 1 ≤ r) ∧
    (∀ uid2 u2, findUser db uid2 = some u2 → balKey u2 = balKey u →
      (rankOf db uid2).map Prod.fst = (rankOf db uid).map Prod.fst) ∧
    List.Pairwise (fun a b => b.2 ≤ a.2) (leaderboard db) ∧
    (leaderboard db).length ≤ 10 := by
  refine ⟨?_, ?_, ?_, ?_, ?_⟩
  · simp [rankOf, hfind]
  · intro r b h
    simp [rankOf, hfind] at h
    obtain ⟨h1, h2⟩ := h
    omega
  · intro uid2 u2 hfind2 hbal
    simp [rankOf, hfind, hfind2, hbal]
  · have hsorted : List.Pairwise lbRel (List.insertionSort lbRel db) :=
      List.sorted_insertionSort lbRel db
    have htake : List.Pairwise lbRel ((List.insertionSort lbRel db).take 10) :=
      hsorted.sublist (List.take_sublist 10 _)
    unfold leaderboard
    exact htake.map _ (fun a b h => h)
  · simp only [leaderboard, List.length_map, List.length_take]
    omega

/-- C6 witness: a single-user store. -/
theorem rank_and_leaderboard_witness :
    rankOf [mkUser 1 "A"] 1
      = some (1 + ([mkUser 1 "A"].filter
          (fun v => balKey (mkUser 1 "A") < balKey v)).length, balKey (mkUser 1 "A")) ∧
    (∀ r b, rankOf [mkUser 1 "A"] 1 = some (r, b) → 1 ≤ r) ∧
    (∀ uid2 u2, findUser [mkUser 1 "A"] uid2 = some u2 →
      balKey u2 = balKey (mkUser 1 "A") →
      (rankOf [mkUser 1 "A"] uid2).map Prod.fst = (rankOf [mkUser 1 "A"] 1).map Prod.fst) ∧
    List.Pairwise (fun a b => b.2 ≤ a.2) (leaderboard [mkUser 1 "A"]) ∧
    (leaderboard [mkUser 1 "A"]).length ≤ 10 :=
  rank_and_leaderboard [mkUser 1 "A"] 1 (mkUser 1 "A") rfl

/-- Helper: a resolved referral token denotes an id that `findUser`
can look up. -/
theorem resolveToken_mem (db : List UserRec) (tok : String) (A : UserRec)
    (h : resolveToken db tok = some A) : ∃ r, findUser db A.user_id = some r := by
  unfold resolveToken at h
  cases hname : db.find? (fun u => u.username == tok) with
  | some w =>
    rw [hname] at h
    injection h with h
    subst h
    have hmem : w ∈ db := List.mem_of_find?_eq_some hname
    have hsome : (db.find? (hasId w.user_id)).isSome := by
      rw [List.find?_isSome]
      exact ⟨w, hmem, by simp [hasId]⟩
    obtain ⟨r, hr⟩ := Option.isSome_iff_exists.mp hsome
    exact ⟨r, hr⟩
  | none =>
    rw [hname] at h
    rcases htn : tok.toNat? with _ | n
    · rw [htn] at h
      simp at h
    · rw [htn] at h
      simp only [Option.bind_some] at h
      have hid : A.user_id = n := by
        have hA := List.find?_some h
        simpa [hasId] using hA
      exact ⟨A, by rw [hid]; exact h⟩

/-- C7: once a referral registration for invitee `B` has applied —
resolving the token to an inviter `A`, recording `referred_by := A`
on `B` and crediting `A` by the bonus — every later referral
registration for `B` is a no-op returning `applied = false` and
leaving the store unchanged, whether it repeats the same token or
names a different inviter; so the inviter is credited exactly once. -/
theorem register_referral_once (db : List UserRec) (B : Nat) (tok : String) (bonus : Int)
    (db2 : List UserRec) (hfirst : register_referral db B tok bonus = (true, db2)) :
    (∀ tok2 bonus2, register_referral db2 B tok2 bonus2 = (false, db2)) ∧
    (∃ A, resolveToken db tok = some A ∧ A.user_id ≠ B ∧
      (findUser db2 B).map (fun v => v.referred_by) = some (some A.user_id) ∧
      getBalance db2 A.user_id = (getBalance db A.user_id).map (fun b => b + bonus)) := by
  rcases hres : resolveToken db tok with _ | A
  · simp [register_referral, hres] at hfirst
  · by_cases hAB : (A.user_id == B) = true
    · simp [register_referral, hres, hAB] at hfirst
    · rcases hfB : findUser db B with _ | inv
      · simp [register_referral, hres, hAB, hfB] at hfirst
      · by_cases hrefd : inv.referred_by.isSome = true
        · simp [register_referral, hres, hAB, hfB, hrefd] at hfirst
        · have hAB' : A.user_id ≠ B := by simpa using hAB
          have hdb2 : db2 = db.map (fun v =>
              if hasId B v then { v with referred_by := some A.user_id }
              else if hasId A.user_id v then
                { v with balance := some (v.balance.getD 0 + bonus) }
              else v) := by
            have h := hfirst
            simp [register_referral, hres, hAB, hfB, hrefd] at h
            exact h.symm
          have hG : ∀ v, ((fun v =>
              if hasId B v then { v with referred_by := some A.user_id }
              else if hasId A.user_id v then
                { v with balance := some (v.balance.getD 0 + bonus) }
              else v) v).user_id = v.user_id := by
            intro v
            by_cases h1 : hasId B v = true
            · simp [h1]
            · by_cases h2 : hasId A.user_id v = true <;> simp [h1, h2]
          have hBinv : hasId B inv = true := List.find?_some hfB
          have hfB2 : findUser db2 B = some { inv with referred_by := some A.user_id } := by
            rw [hdb2, findUser_map _ hG, hfB]
            simp [hBinv]
          refine ⟨?_, A, rfl, hAB', ?_, ?_⟩
          · intro tok2 bonus2
            rcases hres2 : resolveToken db2 tok2 with _ | A2
            · simp [register_referral, hres2]
            · by_cases hA2B : (A2.user_id == B) = true
              · simp [register_referral, hres2, hA2B]
              · simp [register_referral, hres2, hA2B, hfB2]
          · rw [hfB2]
            rfl
          · obtain ⟨rA, hfA⟩ := resolveToken_mem db tok A hres
            have hAA : hasId A.user_id rA = true := List.find?_some hfA
            have hidA : rA.user_id = A.user_id := by simpa [hasId] using hAA
            have hBA : ¬ hasId B rA = true := by
              simp [hasId, hidA]
              exact hAB'
            have hfA2 : findUser db2 A.user_id
                = some { rA with balance := some (rA.balance.getD 0 + bonus) } := by
              rw [hdb2, findUser_map _ hG, hfA]
              simp [hBA, hAA]
            unfold getBalance
            rw [hfA2, hfA]
            rfl

/-- C7 witness: user 2 is referred by the token naming user 1's
username; the registration applies once and later attempts are
no-ops. -/
theorem register_referral_once_witness :
    (∀ tok2 bonus2,
      register_referral
        [{ mkUser 1 "A" with balance := some 7 }, { mkUser 2 "B" with referred_by := some 1 }]
        2 tok2 bonus2
        = (false,
           [{ mkUser 1 "A" with balance := some 7 },
            { mkUser 2 "B" with referred_by := some 1 }])) ∧
    (∃ A, resolveToken [mkUser 1 "A", mkUser 2 "B"] "A" = some A ∧ A.user_id ≠ 2 ∧
      (findUser [{ mkUser 1 "A" with balance := some 7 },
                 { mkUser 2 "B" with referred_by := some 1 }] 2).map (fun v => v.referred_by)
        = some (some A.user_id) ∧
      getBalance [{ mkUser 1 "A" with balance := some 7 },
                  { mkUser 2 "B" with referred_by := some 1 }] A.user_id
        = (getBalance [mkUser 1 "A", mkUser 2 "B"] A.user_id).map (fun b => b + 7)) :=
  register_referral_once [mkUser 1 "A", mkUser 2 "B"] 2 "A" 7
    [{ mkUser 1 "A" with balance := some 7 }, { mkUser 2 "B" with referred_by := some 1 }]
    rfl

/-- Helper: one ledger operation preserves nonnegativity of every
stored balance. -/
theorem applyOp_nonneg (db : List UserRec) (op : LedgerOp) (h : balancesNonneg db) :
    balancesNonneg (applyOp db op) := by
  cases op with
  | claimOp uid now =>
    show balancesNonneg (daily_rewards db uid now).2
    rcases hfind : findUser db uid with _ | u
    · have hd : (daily_rewards db uid now).2 = db := by
        simp [daily_rewards, claimRead, hfind]
      rw [hd]
      exact h
    · by_cases hel : claimEligible u now = true
      · have hd : (daily_rewards db uid now).2 = claimWrite db uid u now := by
          simp [daily_rewards, claimRead, hfind, hel]
        rw [hd]
        intro v hv
        unfold claimWrite at hv
        rcases List.mem_map.mp hv with ⟨w, hw, hweq⟩
        have hu : u ∈ db := List.mem_of_find?_eq_some hfind
        have hu0 := h u hu
        have hw0 := h w hw
        by_cases hwid : hasId uid w = true
        · rw [← hweq]
          simp only [hwid, if_true]
          simp only [Option.getD_some]
          omega
        · rw [← hweq]
          simp only [hwid, if_false]
          exact hw0
      · have hd : (daily_rewards db uid now).2 = db := by
          simp [daily_rewards, claimRead, hfind, hel]
        rw [hd]
        exact h
  | creditOp uid amount =>
    show balancesNonneg (match credit db uid amount with | some p => p.2 | none => db)
    by_cases hpos : amount ≤ 0
    · have hc : credit db uid amount = none := by simp [credit, hpos]
      rw [hc]
      exact h
    · rcases hfind : findUser db uid with _ | u
      · have hc : credit db uid amount = none := by simp [credit, hpos, hfind]
        rw [hc]
        exact h
      · have hc : credit db uid amount
            = some (u.balance.getD 0 + amount,
                db.map (fun v =>
                  if hasId uid v then { v with balance := some (v.balance.getD 0 + amount) }
                  else v)) := by
          simp [credit, hpos, hfind]
        rw [hc]
        intro v hv
        rcases List.mem_map.mp hv with ⟨w, hw, hweq⟩
        have hw0 := h w hw
        by_cases hwid : hasId uid w = true
        · rw [← hweq]
          simp only [hwid, if_true]
          simp only [Option.getD_some]
          omega
        · rw [← hweq]
          simp only [hwid, if_false]
          exact hw0

/-- Helper: one ledger operation never lowers the balance view of any
user. -/
theorem applyOp_mono (db : List UserRec) (op : LedgerOp) (uid : Nat) (b : Int)
    (h : getBalance db uid = some b) :
    ∃ b2, getBalance (applyOp db op) uid = some b2 ∧ b ≤ b2 := by
  rcases hfind0 : findUser db uid with _ | r
  · rw [getBalance, hfind0] at h
    simp at h
  · rw [getBalance, hfind0] at h
    simp only [Option.map_some'] at h
    injection h with hb
    have hrid : r.user_id = uid := by simpa [hasId] using List.find?_some hfind0
    cases op with
    | claimOp uid2 now =>
      rcases hfind : findUser db uid2 with _ | u
      · have hd : applyOp db (.claimOp uid2 now) = db := by
          show (daily_rewards db uid2 now).2 = db
          simp [daily_rewards, claimRead, hfind]
        rw [hd]
        exact ⟨b, by rw [getBalance, hfind0]; simp [hb], le_rfl⟩
      · by_cases hel : claimEligible u now = true
        · have hd : applyOp db (.claimOp uid2 now) = claimWrite db uid2 u now := by
            show (daily_rewards db uid2 now).2 = claimWrite db uid2 u now
            simp [daily_rewards, claimRead, hfind, hel]
          rw [hd]
          have hf2 : findUser (claimWrite db uid2 u now) uid
              = (findUser db uid).map (fun v =>
                  if hasId uid2 v then
                    { v with balance := some (u.balance.getD 0 + 10),
                             last_claimed := some (midnight now) }
                  else v) := by
            unfold claimWrite
            exact findUser_map _
              (fun v => by by_cases hh : hasId uid2 v = true <;> simp [hh]) uid db
          by_cases hid : hasId uid2 r = true
          · have huid : uid2 = uid := by
              have h2 : r.user_id = uid2 := by simpa [hasId] using hid
              rw [← h2, hrid]
            rw [huid] at hfind
            have hur : u = r := by
              have := hfind0.symm.trans hfind
              exact (Option.some.inj this).symm
            refine ⟨u.balance.getD 0 + 10, ?_, ?_⟩
            · rw [getBalance, hf2, hfind0]
              simp [hid]
            · rw [hur, ← hb]
              omega
          · refine ⟨b, ?_, le_rfl⟩
            rw [getBalance, hf2, hfind0]
            simp [hid, hb]
        · have hd : applyOp db (.claimOp uid2 now) = db := by
            show (daily_rewards db uid2 now).2 = db
            simp [daily_rewards, claimRead, hfind, hel]
          rw [hd]
          exact ⟨b, by rw [getBalance, hfind0]; simp [hb], le_rfl⟩
    | creditOp uid2 amount =>
      by_cases hpos : amount ≤ 0
      · have hd : applyOp db (.creditOp uid2 amount) = db := by
          show (match credit db uid2 amount with | some p => p.2 | none => db) = db
          simp [credit, hpos]
        rw [hd]
        exact ⟨b, by rw [getBalance, hfind0]; simp [hb], le_rfl⟩
      · rcases hfind : findUser db uid2 with _ | u
        · have hd : applyOp db (.creditOp uid2 amount) = db := by
            show (match credit db uid2 amount with | some p => p.2 | none => db) = db
            simp [credit, hpos, hfind]
          rw [hd]
          exact ⟨b, by rw [getBalance, hfind0]; simp [hb], le_rfl⟩
        · have hd : applyOp db (.creditOp uid2 amount)
              = db.map (fun v =>
                  if hasId uid2 v then { v with balance := some (v.balance.getD 0 + amount) }
                  else v) := by
            show (match credit db uid2 amount with | some p => p.2 | none => db) = _
            simp [credit, hpos, hfind]
          rw [hd]
          have hf2 : findUser (db.map (fun v =>
              if hasId uid2 v then { v with balance := some (v.balance.getD 0 + amount) }
              else v)) uid
              = (findUser db uid).map (fun v =>
                  if hasId uid2 v then { v with balance := some (v.balance.getD 0 + amount) }
                  else v) :=
            findUser_map _
              (fun v => by by_cases hh : hasId uid2 v = true <;> simp [hh]) uid db
          by_cases hid : hasId uid2 r = true
          · refine ⟨r.balance.getD 0 + amount, ?_, ?_⟩
            · rw [getBalance, hf2, hfind0]
              simp [hid]
            · rw [← hb]
              omega
          · refine ⟨b, ?_, le_rfl⟩
            rw [getBalance, hf2, hfind0]
            simp [hid, hb]

/-- C8: across any finite sequence of daily-claim and credit
operations, every stored balance stays nonnegative and the balance
view of every user never decreases — no core operation lowers a
balance. -/
theorem ledger_nonneg_monotone (db : List UserRec) (ops : List LedgerOp)
    (hnn : balancesNonneg db) :
    balancesNonneg (applyOps db ops) ∧
    (∀ uid b, getBalance db uid = some b →
      ∃ b2, getBalance (applyOps db ops) uid = some b2 ∧ b ≤ b2) := by
  induction ops generalizing db with
  | nil => exact ⟨hnn, fun uid b h => ⟨b, h, le_rfl⟩⟩
  | cons op rest ih =>
    obtain ⟨ha, hmono⟩ := ih (applyOp db op) (applyOp_nonneg db op hnn)
    refine ⟨ha, ?_⟩
    intro uid b h
    obtain ⟨b1, hb1, hle1⟩ := applyOp_mono db op uid b h
    obtain ⟨b2, hb2, hle2⟩ := hmono uid b1 hb1
    exact ⟨b2, hb2, le_trans hle1 hle2⟩

/-- C8 witness: one claim followed by one credit on a fresh store. -/
theorem ledger_nonneg_monotone_witness :
    balancesNonneg (applyOps [mkUser 1 "U1"] [.claimOp 1 ⟨0, 5⟩, .creditOp 1 4]) ∧
    (∀ uid b, getBalance [mkUser 1 "U1"] uid = some b →
      ∃ b2, getBalance (applyOps [mkUser 1 "U1"] [.claimOp 1 ⟨0, 5⟩, .creditOp 1 4]) uid
          = some b2 ∧ b ≤ b2) :=
  ledger_nonneg_monotone [mkUser 1 "U1"] [.claimOp 1 ⟨0, 5⟩, .creditOp 1 4]
    (by simp [balancesNonneg, mkUser])
